import Mathlib

/-!
Verification of the `@anycable/core` client pieces: the ActionCable protocol
dispatcher (`src/packages/core/action_cable/index.js`), the `createCable`
factory and its token-refresh watcher (`src/packages/core/create-cable/index.js`).

The JavaScript is shallowly embedded: JS values become the `JSValue` family,
`JSON.stringify` becomes `stringifyV`, the protocol object's methods become
pure functions from an explicit `ProtocolState` to a new state plus a list of
observable effects (wire sends, cable signals, promise settlements, log
lines), and the asynchronous token-refresh workflow becomes a step machine
over the cooperative event loop's suspension points.
-/

/-! # JavaScript values

JS runtime values as far as the protocol code observes them: `undefined`,
`null`, booleans, numbers, strings, arrays and plain objects.  Objects are
ordered key–value sequences, matching JS insertion-order enumeration for
string keys.  Numbers are modelled as the integers together with the
doubles that serialize specially: `NaN` and the two infinities (which
`JSON.stringify` prints as `null`, per ECMA-262 SerializeJSONProperty) and
negative zero (which prints as `0`).  Finite non-integral doubles are
outside the model: ECMA-262 Number::toString is injective on finite doubles
apart from `-0` versus `0`, so restricting the finite numbers to integers
drops no serialization collision, while the special values that do collide
are carried explicitly.  Functions and symbols, which the
protocol never stores in payloads, are outside the model, and object prototype
chains are abstracted away: property lookup consults own properties only.
The three types are mutually inductive so that proofs can recurse over
values, element lists and member lists in lock step.
-/

mutual
inductive JSValue where
  | undefined
  | null
  | bool (b : Bool)
  | num (n : Int)
  | nan
  | posInf
  | negInf
  | negZero
  | str (s : String)
  | arr (elems : JSList)
  | obj (fields : JSMembers)
  deriving DecidableEq
inductive JSList where
  | nil
  | cons (hd : JSValue) (tl : JSList)
  deriving DecidableEq
inductive JSMembers where
  | nil
  | cons (key : String) (val : JSValue) (tl : JSMembers)
  deriving DecidableEq
end

/-- The result of the JS `typeof` operator; note `typeof null` is `"object"`. -/
def jsTypeof : JSValue → String
  | .undefined => "undefined"
  | .null => "object"
  | .bool _ => "boolean"
  | .num _ => "number"
  | .nan => "number"
  | .posInf => "number"
  | .negInf => "number"
  | .negZero => "number"
  | .str _ => "string"
  | .arr _ => "object"
  | .obj _ => "object"

/-- JS truthiness: `undefined`, `null`, `false`, `0` and `""` are falsy. -/
def jsTruthy : JSValue → Bool
  | .undefined => false
  | .null => false
  | .bool b => b
  | .num n => n ≠ 0
  | .nan => false
  | .posInf => true
  | .negInf => true
  | .negZero => false
  | .str s => s ≠ ""
  | .arr _ => true
  | .obj _ => true

/-- Own-property read `o[key]`, yielding `undefined` when the key is absent or
the base is an array (the frames' named fields are never array indices). -/
def recordGet : JSMembers → String → Option JSValue
  | .nil, _ => none
  | .cons k v tl, key => if k = key then some v else recordGet tl key

/-- Property write `o[key] = v`: overwrites the first binding of `key` in
place, keeping its position, or appends a fresh binding at the end —
JS object insertion-order semantics. -/
def recordSet : JSMembers → String → JSValue → JSMembers
  | .nil, key, v => .cons key v .nil
  | .cons k w tl, key, v =>
    if k = key then .cons key v tl else .cons k w (recordSet tl key v)

/-- The `Object.assign(target, source)` loop: copy each own member of
`source`, in order, onto `target` (own properties set to `undefined` are
copied too). -/
def objAssign : JSMembers → JSMembers → JSMembers
  | t, .nil => t
  | t, .cons k v tl => objAssign (recordSet t k v) tl

/-- Destructured field access `let x = msg.x`: an absent member reads as
`undefined`. -/
def getField (msg : JSValue) (key : String) : JSValue :=
  match msg with
  | .obj fs => (recordGet fs key).getD .undefined
  | _ => .undefined

/-! # Decimal digits -/

/-- The character for decimal digit `d` (`d < 10`). -/
def digitChar (d : Nat) : Char := Char.ofNat (48 + d)

/-- Lowercase hexadecimal digit character for `d < 16`, as `JSON.stringify`
prints in `\u00xx` escapes. -/
def hexDigitChar (d : Nat) : Char :=
  if d < 10 then Char.ofNat (48 + d) else Char.ofNat (87 + d)

/-- Decimal digits of `n`, most significant first, in front of `acc`.  The
first argument is fuel bounding the digit count, so the recursion is
structural and computes by kernel reduction; any fuel above `n` is enough,
since a number exceeds its digit count. -/
def natCharsGo : Nat → Nat → List Char → List Char
  | 0, _, acc => acc
  | fuel + 1, n, acc =>
    if n < 10 then digitChar n :: acc
    else natCharsGo fuel (n / 10) (digitChar (n % 10) :: acc)

/-- Decimal rendering of a natural number, no leading zeros. -/
def natChars (n : Nat) : List Char := natCharsGo (n + 1) n []

/-- Decimal rendering of an integer, `-` sign for negatives, as JS prints an
integral number. -/
def intChars (n : Int) : List Char :=
  if n < 0 then '-' :: natChars n.natAbs else natChars n.natAbs

/-! # The printer: JSON.stringify

`JSON.stringify` as the protocol calls it, on the value model above: strings
are quoted with the standard escapes (`\"`, `\\`, `\b`, `\t`, `\n`, `\f`,
`\r`, and `\u00xx` for the remaining control characters), object members
whose value is `undefined` are skipped, an `undefined` array element prints
as `null`, and the non-finite numbers print as `null` while negative zero
prints as `0` (ECMA-262 SerializeJSONProperty).  The protocol only ever stringifies objects, so the
top-level-`undefined` corner of the JS API (where `JSON.stringify` returns
no string at all) is unreachable from the embedded call sites.
-/

/-- Opening brace character, kept as a named constant. -/
def lbrace : Char := Char.ofNat 123

/-- Closing brace character, kept as a named constant. -/
def rbrace : Char := Char.ofNat 125

/-- The characters of a string literal, for the printer's keyword output. -/
def litChars (s : String) : List Char := s.data

/-- The six-character `\u00xx` escape for a control character's code. -/
def uEscape (n : Nat) : List Char :=
  '\\' :: 'u' :: '0' :: '0' :: hexDigitChar (n / 16) :: [hexDigitChar (n % 16)]

/-- How `JSON.stringify` writes one character of a string. -/
def escapeChar (c : Char) : List Char :=
  if c = '"' then ['\\', '"']
  else if c = '\\' then ['\\', '\\']
  else if c = Char.ofNat 8 then ['\\', 'b']
  else if c = Char.ofNat 9 then ['\\', 't']
  else if c = Char.ofNat 10 then ['\\', 'n']
  else if c = Char.ofNat 12 then ['\\', 'f']
  else if c = Char.ofNat 13 then ['\\', 'r']
  else if c.toNat < 32 then uEscape c.toNat
  else [c]

/-- Escape every character of a string body. -/
def escapeList : List Char → List Char
  | [] => []
  | c :: rest => escapeChar c ++ escapeList rest

/-- A JSON string literal: quote, escaped body, quote. -/
def quoteChars (s : String) : List Char :=
  '"' :: (escapeList s.data ++ ['"'])

mutual
/-- Character stream `JSON.stringify` produces for a value. -/
def stringifyV : JSValue → List Char
  | .undefined => litChars "null"
  | .null => litChars "null"
  | .bool true => litChars "true"
  | .bool false => litChars "false"
  | .num n => intChars n
  | .nan => litChars "null"
  | .posInf => litChars "null"
  | .negInf => litChars "null"
  | .negZero => litChars "0"
  | .str s => quoteChars s
  | .arr es => '[' :: (stringifyL es ++ [']'])
  | .obj fs => lbrace :: (stringifyM fs ++ [rbrace])
/-- Comma-separated array elements. -/
def stringifyL : JSList → List Char
  | .nil => []
  | .cons v tl =>
    stringifyV v ++ (match tl with | .nil => [] | .cons _ _ => ',' :: stringifyL tl)
/-- Comma-separated object members; a member whose value is `undefined` is
skipped, exactly as `JSON.stringify` drops such own properties. -/
def stringifyM : JSMembers → List Char
  | .nil => []
  | .cons k v tl =>
    if v = .undefined then stringifyM tl
    else
      quoteChars k ++ ':' :: stringifyV v ++
        (if (stringifyM tl).isEmpty then [] else ',' :: stringifyM tl)
end

/-- String result of `JSON.stringify` on the values the protocol serializes. -/
def jsonStringify (v : JSValue) : String := String.mk (stringifyV v)

/-! # JS string coercion

Property access `table[identifier]` coerces the key to a string.  The
protocol's own keys are `JSON.stringify` outputs, hence already strings, but
`receive` indexes the pending table with whatever `identifier` field an
inbound frame carries, so the coercion is part of the embedded semantics:
`undefined` reads back as the key `"undefined"`, arrays join their elements
with commas (`null` and `undefined` elements joining as empty), plain objects
as `"[object Object]"`. -/

mutual
def jsToString : JSValue → String
  | .undefined => "undefined"
  | .null => "null"
  | .bool true => "true"
  | .bool false => "false"
  | .num n => String.mk (intChars n)
  | .nan => "NaN"
  | .posInf => "Infinity"
  | .negInf => "-Infinity"
  | .negZero => "0"
  | .str s => s
  | .arr es => String.mk (arrToStringL es)
  | .obj _ => "[object Object]"
def arrToStringL : JSList → List Char
  | .nil => []
  | .cons v tl =>
    (match v with
      | .undefined => []
      | .null => []
      | w => (jsToString w).data) ++
    (match tl with | .nil => [] | .cons _ _ => ',' :: arrToStringL tl)
end


/-! # The ActionCable protocol dispatcher

Embedding of `ActionCableProtocol` from
`src/packages/core/action_cable/index.js`.  The mutable object becomes
`ProtocolState`; each method becomes a function from its arguments and the
current state to the next state plus the ordered list of observable effects
it performs.  A pending subscription's promise executor pair
`(resolve, reject)` is identified by the `Nat` tag allocated for it at
`subscribe` time, and settling that promise is an effect naming the tag.
The collaborators (`this.cable`, `this.logger`) are external, so calls into
them are effects too. -/

/-- The error values the dispatcher constructs: `DisconnectedError(reason)`
and `SubscriptionRejectedError` from `src/packages/core/protocol/index.js`. -/
inductive ErrValue where
  | disconnected (reason : JSValue)
  | subscriptionRejected
  deriving DecidableEq

/-- Outbound wire commands passed to `cable.send`. -/
inductive Command where
  | subscribeCmd (identifier : String)
  | unsubscribeCmd (identifier : String)
  | messageCmd (identifier : String) (data : String)
  deriving DecidableEq

/-- One observable action of a dispatcher method, in program order. -/
inductive Effect where
  | send (cmd : Command)
  | keepalive (msg : JSValue)
  | connectedSig
  | closeSig (err : ErrValue)
  | disconnectedSig (err : ErrValue)
  | resolveProm (cont : Nat) (value : JSValue)
  | rejectProm (cont : Nat) (err : ErrValue)
  | logError (text : String)
  | logWarn (text : String)
  deriving DecidableEq

/-- Pending-subscription table entries, in insertion order: identifier string
paired with the tag of the promise continuation stored for it.  `nextTag`
numbers the continuations so that distinct `subscribe` calls are
distinguishable. -/
structure ProtocolState where
  pendingSubscriptions : List (String × Nat)
  nextTag : Nat
  deriving DecidableEq

/-- The freshly constructed protocol: `this.pendingSubscriptions = {}`. -/
def initialProtocolState : ProtocolState := ⟨[], 0⟩

/-- Lookup in the pending table (own keys only, first match). -/
def tableGet : List (String × Nat) → String → Option Nat
  | [], _ => none
  | (k, v) :: tl, key => if k = key then some v else tableGet tl key

/-- Write `table[key] = cont` with JS object semantics: overwrite the first
binding in place or append a fresh one. -/
def tableSet : List (String × Nat) → String → Nat → List (String × Nat)
  | [], key, cont => [(key, cont)]
  | (k, v) :: tl, key, cont =>
    if k = key then (key, cont) :: tl else (k, v) :: tableSet tl key cont

/-- The merged payload of `subscribe(channel, params)`: start from
`\x7b channel \x7d` and, when `params` is a (truthy) object, `Object.assign`
its members over it. -/
def subscribePayload (channel : String) (params : Option JSMembers) : JSMembers :=
  match params with
  | none => .cons "channel" (.str channel) .nil
  | some ps => objAssign (.cons "channel" (.str channel) .nil) ps

/-- The identifier `subscribe` derives: `JSON.stringify` of the merged
payload. -/
def subscribeIdentifier (channel : String) (params : Option JSMembers) : String :=
  jsonStringify (.obj (subscribePayload channel params))

/-- Result of a dispatcher method that returns a promise: either the already
resolved `Promise.resolve()` or a pending promise whose executor pair carries
the given tag. -/
inductive PromiseRes where
  | resolvedProm
  | pendingProm (cont : Nat)
  deriving DecidableEq

/-- Method `subscribe(channel, params)`: derive the identifier, record the
pending continuation under it, send the subscribe command, and hand back the
pending promise. -/
def subscribe (channel : String) (params : Option JSMembers) (st : ProtocolState) :
    ProtocolState × List Effect × PromiseRes :=
  let identifier := subscribeIdentifier channel params
  (⟨tableSet st.pendingSubscriptions identifier st.nextTag, st.nextTag + 1⟩,
    [Effect.send (Command.subscribeCmd identifier)],
    PromiseRes.pendingProm st.nextTag)

/-- Method `unsubscribe(identifier)`: one wire command, state untouched,
`Promise.resolve()` returned. -/
def unsubscribe (identifier : String) (st : ProtocolState) :
    ProtocolState × List Effect × PromiseRes :=
  (st, [Effect.send (Command.unsubscribeCmd identifier)], PromiseRes.resolvedProm)

/-- Method `perform(identifier, action, payload)`: a falsy payload is
replaced by an empty object, `payload.action = action` overwrites any
caller-supplied member, and the result is serialized into the `data` field
of a single message command. -/
def perform (identifier : String) (action : String) (payload : Option JSMembers)
    (st : ProtocolState) : ProtocolState × List Effect × PromiseRes :=
  let merged := recordSet (payload.getD .nil) "action" (.str action)
  (st,
    [Effect.send (Command.messageCmd identifier (jsonStringify (.obj merged)))],
    PromiseRes.resolvedProm)

/-- Method `reset(err)`: reject every pending continuation, in table order,
then replace the table with a fresh empty object. -/
def reset (err : ErrValue) (st : ProtocolState) : ProtocolState × List Effect :=
  (⟨[], st.nextTag⟩,
    st.pendingSubscriptions.map (fun p => Effect.rejectProm p.2 err))

/-- The runtime error `receive` can raise: destructuring `null` throws a
`TypeError` in JS. -/
inductive JSError where
  | typeError
  deriving DecidableEq

instance {ε α : Type} [DecidableEq ε] [DecidableEq α] : DecidableEq (Except ε α) :=
  fun a b =>
    match a, b with
    | .ok x, .ok y =>
      if h : x = y then isTrue (by rw [h]) else isFalse (by simp [h])
    | .error x, .error y =>
      if h : x = y then isTrue (by rw [h]) else isFalse (by simp [h])
    | .ok _, .error _ => isFalse (by simp)
    | .error _, .ok _ => isFalse (by simp)

/-- Method `receive(msg)`.  The translation follows the source line by line:
the `typeof msg !== 'object'` guard (which `null` passes, since JS gives
`typeof null === 'object'`, so the subsequent destructuring of `null`
throws), then dispatch on the `type` field, with `reset` inlined for the
`disconnect` frame, table lookups for the subscription replies, and the
routed-frame / unknown-frame fallthrough.  The third component of a
successful result is the dispatcher's return value when it is a routed
`identifier`/`message` pair, `none` when the JS function returns
`undefined` or a collaborator's result. -/
def receive (msg : JSValue) (st : ProtocolState) :
    Except JSError (ProtocolState × List Effect × Option (JSValue × JSValue)) :=
  if jsTypeof msg ≠ "object" then
    .ok (st, [Effect.logError "unsupported message format"], none)
  else if msg = .null then
    .error JSError.typeError
  else
    let type := getField msg "type"
    let identifier := getField msg "identifier"
    let message := getField msg "message"
    let reason := getField msg "reason"
    let reconnect := getField msg "reconnect"
    if type = .str "ping" then
      .ok (st, [Effect.keepalive message], none)
    else if type = .str "welcome" then
      .ok (st, [Effect.connectedSig], none)
    else if type = .str "disconnect" then
      let err := ErrValue.disconnected reason
      let r := reset err st
      if reconnect = .bool false then
        .ok (r.1, r.2 ++ [Effect.closeSig err], none)
      else
        .ok (r.1, r.2 ++ [Effect.disconnectedSig err], none)
    else if type = .str "confirm_subscription" then
      match tableGet st.pendingSubscriptions (jsToString identifier) with
      | none => .ok (st, [Effect.logError "subscription not found"], none)
      | some cont => .ok (st, [Effect.resolveProm cont identifier], none)
    else if type = .str "reject_subscription" then
      match tableGet st.pendingSubscriptions (jsToString identifier) with
      | none => .ok (st, [Effect.logError "subscription not found"], none)
      | some cont =>
        .ok (st, [Effect.rejectProm cont ErrValue.subscriptionRejected], none)
    else if jsTruthy message then
      .ok (st, [], some (identifier, message))
    else
      .ok (st, [Effect.logWarn "unknown message type"], none)

/-- Method `recoverableClosure()`. -/
def recoverableClosure : Bool := false


/-! # The createCable factory

Embedding of `createCable` from `src/packages/core/create-cable/index.js`,
at the granularity the configuration claims need.  The collaborators the
factory instantiates (`WebSocketTransport`, `JSONEncoder`, `Monitor`,
`Cable`) are external, so the model records which of them the factory chose
rather than their internals.  A JS option distinguishes three shapes that
`Object.assign` with `DEFAULT_OPTIONS` treats differently: absent (the
default applies), explicitly `undefined` (overwrites the default), and a
given value; `ProtoOpt` keeps those apart for the `protocol` option. -/

inductive ProtoOpt where
  | absent
  | explicitUndefined
  | name (s : String)
  | custom
  deriving DecidableEq

/-- The `monitor` option: absent, the literal `false`, or a custom monitor. -/
inductive MonitorOpt where
  | absent
  | off
  | custom
  deriving DecidableEq

/-- The options bag, restricted to the members `createCable` branches on.
Boolean fields record whether a (truthy) collaborator object was passed. -/
structure CableOpts where
  transport : Bool
  protocol : ProtoOpt
  encoder : Bool
  websocketFormat : Option String
  subprotocol : Option String
  monitor : MonitorOpt
  tokenRefresher : Bool
  deriving DecidableEq

/-- Calling `createCable(url)` with no options object: `opts = opts || \x7b\x7d`. -/
def emptyOpts : CableOpts :=
  ⟨false, ProtoOpt.absent, false, none, none, MonitorOpt.absent, false⟩

/-- The protocol instance the factory ends up with. -/
inductive ResolvedProtocol where
  | actionCableV1
  | customProtocol
  deriving DecidableEq

/-- The errors `createCable` throws synchronously, in source order. -/
inductive ConfigError where
  | urlOrTransportMissing
  | msgpackEncoderMissing
  | protobufEncoderMissing
  | protocolNotSupported (s : String)
  | protocolMissing
  deriving DecidableEq

/-- The cable the factory returns: which pieces were chosen. -/
structure CableModel where
  protocol : ResolvedProtocol
  jsonEncoderDefaulted : Bool
  websocketFormat : Option String
  subprotocol : Option String
  customTransport : Bool
  monitorOn : Bool
  tokenWatcherArmed : Bool
  deriving DecidableEq

/-- JS truthiness of the `url` argument: absent or the empty string is falsy. -/
def urlTruthy : Option String → Bool
  | none => false
  | some s => s ≠ ""

/-- The string-or-default idiom `a || b` on an optional string option. -/
def strOr (a : Option String) (b : String) : String :=
  match a with
  | none => b
  | some s => if s = "" then b else s

/-- What `Object.assign(\x7b\x7d, DEFAULT_OPTIONS, opts)` leaves in `protocol`:
an absent member picks up the default `'actioncable-v1-json'`; an explicit
`undefined` overwrites the default and stays `undefined`. -/
def mergedProtocol : ProtoOpt → ProtoOpt
  | ProtoOpt.absent => ProtoOpt.name "actioncable-v1-json"
  | p => p

/-- The protocol-selection chain of `createCable`: the three recognized
string dialects (JSON defaulting the encoder and the text format, msgpack
forcing the binary format and requiring an explicit encoder, protobuf
defaulting to binary and requiring an explicit encoder), any other string
failing fast, a custom protocol object passing through, and the final
`if (!protocol)` guard rejecting an undefined protocol. -/
def resolveProtocol (protocol : ProtoOpt) (encoder : Bool) (wf : Option String) :
    Except ConfigError (ResolvedProtocol × Bool × Option String) :=
  match protocol with
  | ProtoOpt.name s =>
    if s = "actioncable-v1-json" then
      Except.ok (ResolvedProtocol.actionCableV1, !encoder, some (strOr wf "text"))
    else if s = "actioncable-v1-msgpack" then
      if encoder then Except.ok (ResolvedProtocol.actionCableV1, false, some "binary")
      else Except.error ConfigError.msgpackEncoderMissing
    else if s = "actioncable-v1-protobuf" then
      if encoder then
        Except.ok (ResolvedProtocol.actionCableV1, false, some (strOr wf "binary"))
      else Except.error ConfigError.protobufEncoderMissing
    else Except.error (ConfigError.protocolNotSupported s)
  | ProtoOpt.custom => Except.ok (ResolvedProtocol.customProtocol, false, wf)
  | _ => Except.error ConfigError.protocolMissing

/-- Function `createCable(url, opts)` after the argument swap that lets the
options bag be passed first: a missing options bag defaults to empty, a
falsy `url` with no transport throws, options merge with `DEFAULT_OPTIONS`,
the protocol chain runs, and the surviving configuration assembles the
cable, defaulting the transport, arming the monitor unless `monitor: false`,
and arming the token watcher when a `tokenRefresher` is given. -/
def createCable (url : Option String) (optsArg : Option CableOpts) :
    Except ConfigError CableModel :=
  let opts := optsArg.getD emptyOpts
  if !urlTruthy url && !opts.transport then
    Except.error ConfigError.urlOrTransportMissing
  else
    let protocol := mergedProtocol opts.protocol
    let subprotocol :=
      match protocol with
      | ProtoOpt.name s => some (strOr opts.subprotocol s)
      | _ => opts.subprotocol
    match resolveProtocol protocol opts.encoder opts.websocketFormat with
    | Except.error e => Except.error e
    | Except.ok (rp, jd, wf) =>
      Except.ok
        { protocol := rp
          jsonEncoderDefaulted := jd
          websocketFormat := wf
          subprotocol := subprotocol
          customTransport := opts.transport
          monitorOn := opts.monitor ≠ MonitorOpt.off
          tokenWatcherArmed := opts.tokenRefresher }

/-! # The token-refresh watcher

Embedding of `watchForExpiredToken` and the callback `createCable` arms it
with.  The JS is asynchronous but single-threaded: the `close` listener runs
to its first `await` synchronously — and it calls `unbind()` before awaiting,
so the listener is gone for the whole pending window — then the event loop
may deliver further cable events before `tokenRefresher(transport)` settles,
and again before `cable.connect()` settles.  The machine below has one state
per region between suspension points and one event per event-loop occurrence:
a `close` event with some reason, and the settlement of each awaited
promise.  Settlement events in a phase that is not awaiting that promise
model nothing the program can do and are no-ops. -/

inductive TokenPhase where
  | armedIdle
  | awaitingRefresher
  | awaitingConnect
  | disarmed
  deriving DecidableEq

/-- Watcher state: the phase plus counters of how many times the external
refresher and `cable.connect()` have been invoked. -/
structure TokenState where
  phase : TokenPhase
  refresherCalls : Nat
  connectCalls : Nat
  deriving DecidableEq

inductive TokenEvent where
  | closeEvt (reason : String)
  | refresherResolved
  | refresherRejected
  | connectResolved
  | connectRejected
  deriving DecidableEq

/-- Observable actions of the watcher: starting the refresher, starting
`cable.connect()`, and the `logger.info` line of the `catch` branch. -/
inductive TokenEffect where
  | invokeRefresher
  | invokeConnect
  | logRefreshFailure
  deriving DecidableEq

/-- One event-loop step of the watcher.  From the armed state a `close`
whose reason is `'token_expired'` unbinds the listener and starts the
refresher; with the listener unbound every `close` is ignored.  A refresher
resolution starts `cable.connect()`; a rejection is caught, logged, and
makes the callback return `false`, so `watchForExpiredToken` is not called
again and the watcher stays disarmed.  A connect resolution makes the
callback return `true`, re-arming the watcher; a connect rejection is
caught and logged like a refresher failure. -/
def tokenStep (st : TokenState) (e : TokenEvent) : TokenState × List TokenEffect :=
  match e, st.phase with
  | TokenEvent.closeEvt r, TokenPhase.armedIdle =>
    if r = "token_expired" then
      ({ st with
          phase := TokenPhase.awaitingRefresher
          refresherCalls := st.refresherCalls + 1 },
        [TokenEffect.invokeRefresher])
    else (st, [])
  | TokenEvent.closeEvt _, _ => (st, [])
  | TokenEvent.refresherResolved, TokenPhase.awaitingRefresher =>
    ({ st with
        phase := TokenPhase.awaitingConnect
        connectCalls := st.connectCalls + 1 },
      [TokenEffect.invokeConnect])
  | TokenEvent.refresherRejected, TokenPhase.awaitingRefresher =>
    ({ st with phase := TokenPhase.disarmed }, [TokenEffect.logRefreshFailure])
  | TokenEvent.connectResolved, TokenPhase.awaitingConnect =>
    ({ st with phase := TokenPhase.armedIdle }, [])
  | TokenEvent.connectRejected, TokenPhase.awaitingConnect =>
    ({ st with phase := TokenPhase.disarmed }, [TokenEffect.logRefreshFailure])
  | _, _ => (st, [])

/-- The watcher as armed by `createCable` when a `tokenRefresher` is given. -/
def tokenInit : TokenState := ⟨TokenPhase.armedIdle, 0, 0⟩

/-- Run the watcher over a whole event sequence, accumulating effects. -/
def tokenRun (st : TokenState) : List TokenEvent → TokenState × List TokenEffect
  | [] => (st, [])
  | e :: rest =>
    let r := tokenStep st e
    let r' := tokenRun r.1 rest
    (r'.1, r.2 ++ r'.2)


/-! # A reader for the printer's output

Injectivity of the identifier derivation (claim C1) is proved the classic
way: a deterministic reader inverts the printer, so two values printing to
the same text are the same value.  The reader below is not a general JSON
parser; it accepts exactly the shapes `stringifyV` emits (which is all the
injectivity argument needs), and it is total by construction: the value
readers take explicit fuel, the string reader recurses structurally on its
input. -/

/-- Decimal digit test on a character. -/
def isDigitCh (c : Char) : Bool := 48 ≤ c.toNat && c.toNat ≤ 57

/-- Numeric value of a decimal digit character. -/
def digitVal (c : Char) : Nat := c.toNat - 48

/-- Numeric value of a lowercase hexadecimal digit character. -/
def hexVal (c : Char) : Nat :=
  if c.toNat ≤ 57 then c.toNat - 48 else c.toNat - 87

/-- Consume a maximal run of decimal digits, folding them onto `acc`. -/
def parseNatAcc : List Char → Nat → Nat × List Char
  | [], acc => (acc, [])
  | c :: cs, acc =>
    if isDigitCh c then parseNatAcc cs (10 * acc + digitVal c) else (acc, c :: cs)

mutual
/-- Read a string body up to its closing quote, undoing `escapeChar`. -/
def parseStringBody : List Char → Option (List Char × List Char)
  | [] => none
  | c :: cs =>
    if c = '"' then some ([], cs)
    else if c = '\\' then parseEscTail cs
    else (parseStringBody cs).map fun p => (c :: p.1, p.2)
termination_by structural l => l
/-- Read the character named by an escape sequence, then the rest of the
string body. -/
def parseEscTail : List Char → Option (List Char × List Char)
  | [] => none
  | e :: cs =>
    if e = 'u' then
      match cs with
      | h1 :: h2 :: h3 :: h4 :: cs' =>
        (parseStringBody cs').map fun p =>
          (Char.ofNat (((hexVal h1 * 16 + hexVal h2) * 16 + hexVal h3) * 16 + hexVal h4)
            :: p.1, p.2)
      | _ => none
    else if e = '"' then (parseStringBody cs).map fun p => ('"' :: p.1, p.2)
    else if e = '\\' then (parseStringBody cs).map fun p => ('\\' :: p.1, p.2)
    else if e = 'b' then (parseStringBody cs).map fun p => (Char.ofNat 8 :: p.1, p.2)
    else if e = 't' then (parseStringBody cs).map fun p => (Char.ofNat 9 :: p.1, p.2)
    else if e = 'n' then (parseStringBody cs).map fun p => (Char.ofNat 10 :: p.1, p.2)
    else if e = 'f' then (parseStringBody cs).map fun p => (Char.ofNat 12 :: p.1, p.2)
    else if e = 'r' then (parseStringBody cs).map fun p => (Char.ofNat 13 :: p.1, p.2)
    else none
termination_by structural l => l
end

mutual
/-- Read one value. -/
def parseVal : Nat → List Char → Option (JSValue × List Char)
  | 0, _ => none
  | _ + 1, [] => none
  | fuel + 1, c :: cs =>
    if c = 'n' then
      match cs with
      | 'u' :: 'l' :: 'l' :: r => some (JSValue.null, r)
      | _ => none
    else if c = 't' then
      match cs with
      | 'r' :: 'u' :: 'e' :: r => some (JSValue.bool true, r)
      | _ => none
    else if c = 'f' then
      match cs with
      | 'a' :: 'l' :: 's' :: 'e' :: r => some (JSValue.bool false, r)
      | _ => none
    else if c = '"' then
      (parseStringBody cs).map fun p => (JSValue.str (String.mk p.1), p.2)
    else if c = '[' then
      (parseElems fuel cs).map fun p => (JSValue.arr p.1, p.2)
    else if c = lbrace then
      (parseMembers fuel cs).map fun p => (JSValue.obj p.1, p.2)
    else if c = '-' then
      match cs with
      | [] => none
      | d :: cs' =>
        if isDigitCh d then
          some (JSValue.num (-((parseNatAcc (d :: cs') 0).1 : Int)),
            (parseNatAcc (d :: cs') 0).2)
        else none
    else if isDigitCh c then
      some (JSValue.num ((parseNatAcc (c :: cs) 0).1 : Int), (parseNatAcc (c :: cs) 0).2)
    else none
termination_by structural fuel cs => fuel
/-- Read the elements of an array after its opening bracket. -/
def parseElems : Nat → List Char → Option (JSList × List Char)
  | 0, _ => none
  | _ + 1, [] => none
  | fuel + 1, c :: cs =>
    if c = ']' then some (JSList.nil, cs)
    else
      match parseVal fuel (c :: cs) with
      | none => none
      | some (v, r) =>
        match r with
        | ',' :: r' => (parseElems fuel r').map fun p => (JSList.cons v p.1, p.2)
        | ']' :: r' => some (JSList.cons v JSList.nil, r')
        | _ => none
termination_by structural fuel cs => fuel
/-- Read the members of an object after its opening brace. -/
def parseMembers : Nat → List Char → Option (JSMembers × List Char)
  | 0, _ => none
  | _ + 1, [] => none
  | fuel + 1, c :: cs =>
    if c = rbrace then some (JSMembers.nil, cs)
    else if c = '"' then
      match parseStringBody cs with
      | none => none
      | some (k, r) =>
        match r with
        | ':' :: r' =>
          match parseVal fuel r' with
          | none => none
          | some (v, r2) =>
            match r2 with
            | ',' :: r3 =>
              (parseMembers fuel r3).map fun p =>
                (JSMembers.cons (String.mk k) v p.1, p.2)
            | c4 :: r4 =>
              if c4 = rbrace then some (JSMembers.cons (String.mk k) v JSMembers.nil, r4)
              else none
            | _ => none
        | _ => none
    else none
termination_by structural fuel cs => fuel
end

/-! # Measures and side conditions for the round trip -/

mutual
/-- Fuel a value's text costs the reader. -/
def jmV : JSValue → Nat
  | .arr es => jmL es + 2
  | .obj fs => jmM fs + 2
  | _ => 1
/-- Fuel an element list's text costs. -/
def jmL : JSList → Nat
  | .nil => 0
  | .cons v tl => jmV v + jmL tl + 1
/-- Fuel a member list's text costs. -/
def jmM : JSMembers → Nat
  | .nil => 0
  | .cons _ v tl => jmV v + jmM tl + 1
end

mutual
/-- Values `JSON.stringify` serializes injectively: free of `undefined`
members and of the number specials — `NaN` and the infinities print as
`null` (colliding with the value `null`) and negative zero prints as `0`
(colliding with the number `0`). -/
def jsonSafeV : JSValue → Bool
  | .undefined => false
  | .nan => false
  | .posInf => false
  | .negInf => false
  | .negZero => false
  | .arr es => jsonSafeL es
  | .obj fs => jsonSafeM fs
  | _ => true
def jsonSafeL : JSList → Bool
  | .nil => true
  | .cons v tl => jsonSafeV v && jsonSafeL tl
def jsonSafeM : JSMembers → Bool
  | .nil => true
  | .cons _ v tl => jsonSafeV v && jsonSafeM tl
end

/-- The continuations a printed value is followed by inside a document:
nothing, or a separator or closer.  None of these begins with a digit, which
pins down the maximal-munch number read. -/
def followOk : List Char → Bool
  | [] => true
  | c :: _ => c = ',' || c = ']' || c = rbrace


/-! # Round trip: numbers -/

/-- Any sufficient fuel computes the same digits. -/
theorem natCharsGo_fuel_irrel :
    ∀ n fuel fuel' acc, n < fuel → n < fuel' →
      natCharsGo fuel n acc = natCharsGo fuel' n acc := by
  intro n
  induction n using Nat.strong_induction_on with
  | _ n ih =>
    intro fuel fuel' acc h h'
    match fuel, fuel' with
    | f + 1, f' + 1 =>
      by_cases h10 : n < 10
      · simp [natCharsGo, h10]
      · simp only [natCharsGo, h10, if_false]
        have hlt : n / 10 < n := Nat.div_lt_self (by omega) (by omega)
        exact ih (n / 10) hlt f f' _ (by omega) (by omega)

/-- The accumulator only ever gets appended to. -/
theorem natCharsGo_append :
    ∀ n fuel acc, n < fuel →
      natCharsGo fuel n acc = natCharsGo fuel n [] ++ acc := by
  intro n
  induction n using Nat.strong_induction_on with
  | _ n ih =>
    intro fuel acc h
    match fuel with
    | f + 1 =>
      by_cases h10 : n < 10
      · simp [natCharsGo, h10]
      · simp only [natCharsGo, h10, if_false]
        have hlt : n / 10 < n := Nat.div_lt_self (by omega) (by omega)
        have hf : n / 10 < f := by omega
        rw [ih (n / 10) hlt f _ hf, ih (n / 10) hlt f [digitChar (n % 10)] hf,
          List.append_assoc]
        simp

/-- The digits of a one-digit number. -/
theorem natChars_lt (n : Nat) (h : n < 10) : natChars n = [digitChar n] := by
  simp [natChars, natCharsGo, h]

/-- Peeling the last digit off a larger number. -/
theorem natChars_ge (n : Nat) (h : 10 ≤ n) :
    natChars n = natChars (n / 10) ++ [digitChar (n % 10)] := by
  have hlt : n / 10 < n := Nat.div_lt_self (by omega) (by omega)
  have h10 : ¬ n < 10 := by omega
  conv_lhs => rw [natChars]
  rw [show natCharsGo (n + 1) n [] = natCharsGo n (n / 10) [digitChar (n % 10)] from by
    simp [natCharsGo, h10]]
  rw [natCharsGo_fuel_irrel (n / 10) n (n / 10 + 1) _ (by omega) (by omega),
    natCharsGo_append (n / 10) (n / 10 + 1) _ (by omega)]
  rfl

/-- Digit characters are digits. -/
theorem digitChar_digit (d : Nat) (h : d < 10) : isDigitCh (digitChar d) = true := by
  interval_cases d <;> decide

/-- Reading a digit character back. -/
theorem digitVal_digitChar (d : Nat) (h : d < 10) : digitVal (digitChar d) = d := by
  interval_cases d <;> decide

/-- A number renders to at least one character. -/
theorem natChars_ne_nil (n : Nat) : natChars n ≠ [] := by
  by_cases h : n < 10
  · simp [natChars_lt n h]
  · simp [natChars_ge n (by omega)]

/-- Every character of a rendered number is a digit. -/
theorem natChars_digits : ∀ n, ∀ c ∈ natChars n, isDigitCh c = true := by
  intro n
  induction n using Nat.strong_induction_on with
  | _ n ih =>
    intro c hc
    by_cases h : n < 10
    · rw [natChars_lt n h] at hc
      simp at hc
      subst hc
      exact digitChar_digit n h
    · rw [natChars_ge n (by omega)] at hc
      have hlt : n / 10 < n := Nat.div_lt_self (by omega) (by omega)
      rcases List.mem_append.mp hc with h1 | h2
      · exact ih (n / 10) hlt c h1
      · simp at h2
        subst h2
        exact digitChar_digit _ (Nat.mod_lt _ (by omega))

/-- A maximal digit run folds into the accumulator and stops at the first
non-digit. -/
theorem parseNatAcc_append :
    ∀ (ds rest : List Char) (a : Nat),
      (∀ c ∈ ds, isDigitCh c = true) →
      (∀ c t, rest = c :: t → isDigitCh c = false) →
      parseNatAcc (ds ++ rest) a =
        (ds.foldl (fun v c => 10 * v + digitVal c) a, rest) := by
  intro ds
  induction ds with
  | nil =>
    intro rest a _ hrest
    match rest with
    | [] => simp [parseNatAcc]
    | c :: t => simp [parseNatAcc, hrest c t rfl]
  | cons d ds ih =>
    intro rest a hds hrest
    have hd : isDigitCh d = true := hds d (by simp)
    simp only [List.cons_append, parseNatAcc, hd, if_true, List.foldl_cons]
    exact ih rest _ (fun c hc => hds c (by simp [hc])) hrest

/-- Folding the digits of `n` onto accumulator `a` shifts `a` past them. -/
theorem foldl_natChars :
    ∀ n a, (natChars n).foldl (fun v c => 10 * v + digitVal c) a =
      a * 10 ^ (natChars n).length + n := by
  intro n
  induction n using Nat.strong_induction_on with
  | _ n ih =>
    intro a
    by_cases h : n < 10
    · simp [natChars_lt n h, digitVal_digitChar n h]
      omega
    · have hlt : n / 10 < n := Nat.div_lt_self (by omega) (by omega)
      rw [natChars_ge n (by omega), List.foldl_append, ih (n / 10) hlt a]
      simp [digitVal_digitChar (n % 10) (Nat.mod_lt _ (by omega))]
      rw [Nat.pow_succ]
      have := Nat.div_add_mod n 10
      ring_nf
      omega

/-- Nothing a printed value is followed by starts with a digit. -/
theorem followOk_not_digit (rest : List Char) (h : followOk rest = true) :
    ∀ c t, rest = c :: t → isDigitCh c = false := by
  intro c t hr
  subst hr
  have h3 : c = ',' ∨ c = ']' ∨ c = rbrace := by
    simp [followOk] at h
    tauto
  rcases h3 with h' | h' | h' <;> subst h' <;> decide

/-- Reading a printed natural number back. -/
theorem parseNat_natChars (n : Nat) (rest : List Char) (h : followOk rest = true) :
    parseNatAcc (natChars n ++ rest) 0 = (n, rest) := by
  rw [parseNatAcc_append (natChars n) rest 0 (natChars_digits n)
    (followOk_not_digit rest h), foldl_natChars]
  simp

/-! # Round trip: strings -/

/-- Reading a hexadecimal digit character back. -/
theorem hexVal_hexDigitChar (d : Nat) (h : d < 16) : hexVal (hexDigitChar d) = d := by
  interval_cases d <;> decide

/-- Reading one escaped character back from a string body. -/
theorem parseStringBody_escape (c : Char) (cs : List Char) :
    parseStringBody (escapeChar c ++ cs) =
      (parseStringBody cs).map fun p => (c :: p.1, p.2) := by
  by_cases h1 : c = '"'
  · subst h1; rfl
  by_cases h2 : c = '\\'
  · subst h2; rfl
  by_cases h3 : c = Char.ofNat 8
  · subst h3; rfl
  by_cases h4 : c = Char.ofNat 9
  · subst h4; rfl
  by_cases h5 : c = Char.ofNat 10
  · subst h5; rfl
  by_cases h6 : c = Char.ofNat 12
  · subst h6; rfl
  by_cases h7 : c = Char.ofNat 13
  · subst h7; rfl
  by_cases h8 : c.toNat < 32
  · have e1 : escapeChar c = uEscape c.toNat := by
      simp [escapeChar, h1, h2, h3, h4, h5, h6, h7, h8]
    rw [e1]
    simp only [uEscape, List.cons_append, List.nil_append]
    have e2 : parseStringBody
        ('\\' :: 'u' :: '0' :: '0' :: hexDigitChar (c.toNat / 16)
          :: hexDigitChar (c.toNat % 16) :: cs) =
        (parseStringBody cs).map fun p =>
          (Char.ofNat (((hexVal '0' * 16 + hexVal '0') * 16
              + hexVal (hexDigitChar (c.toNat / 16))) * 16
              + hexVal (hexDigitChar (c.toNat % 16))) :: p.1, p.2) := rfl
    rw [e2, hexVal_hexDigitChar _ (by omega),
      hexVal_hexDigitChar _ (by omega)]
    have harith : ((hexVal '0' * 16 + hexVal '0') * 16 + c.toNat / 16) * 16
        + c.toNat % 16 = c.toNat := by
      have h0 : hexVal '0' = 0 := rfl
      rw [h0]
      omega
    rw [harith, Char.ofNat_toNat]
  · have e1 : escapeChar c = [c] := by
      simp [escapeChar, h1, h2, h3, h4, h5, h6, h7, h8]
    rw [e1]
    simp [parseStringBody, h1, h2]

/-- Reading a whole printed string body back up to its closing quote. -/
theorem parseStringBody_quote (l cs : List Char) :
    parseStringBody (escapeList l ++ '"' :: cs) = some (l, cs) := by
  induction l with
  | nil => rfl
  | cons c t ih =>
    rw [escapeList, List.append_assoc, parseStringBody_escape, ih]
    rfl

/-! # Round trip: dispatch facts -/

/-- A digit character is none of the characters the value reader dispatches
on before reaching its number branches, and none of the closers. -/
theorem digit_head_facts (c : Char) (h : isDigitCh c = true) :
    c ≠ 'n' ∧ c ≠ 't' ∧ c ≠ 'f' ∧ c ≠ '"' ∧ c ≠ '[' ∧ c ≠ lbrace ∧ c ≠ '-' ∧
      c ≠ ']' ∧ c ≠ rbrace := by
  refine ⟨?_, ?_, ?_, ?_, ?_, ?_, ?_, ?_, ?_⟩ <;>
    (rintro rfl; exact absurd h (by decide))

/-- A printed value starts with a character that is not a closer, so the
element and member readers never mistake it for the end of a collection. -/
theorem stringifyV_head (v : JSValue) :
    ∃ c t, stringifyV v = c :: t ∧ c ≠ ']' ∧ c ≠ rbrace := by
  cases v with
  | undefined => exact ⟨'n', _, rfl, by decide, by decide⟩
  | null => exact ⟨'n', _, rfl, by decide, by decide⟩
  | nan => exact ⟨'n', _, rfl, by decide, by decide⟩
  | posInf => exact ⟨'n', _, rfl, by decide, by decide⟩
  | negInf => exact ⟨'n', _, rfl, by decide, by decide⟩
  | negZero => exact ⟨'0', _, rfl, by decide, by decide⟩
  | bool b =>
    cases b with
    | true => exact ⟨'t', _, rfl, by decide, by decide⟩
    | false => exact ⟨'f', _, rfl, by decide, by decide⟩
  | num n =>
    by_cases hn : n < 0
    · exact ⟨'-', natChars n.natAbs, by simp [stringifyV, intChars, hn], by decide,
        by decide⟩
    · obtain ⟨d, t, hdt⟩ : ∃ d t, natChars n.natAbs = d :: t := by
        cases hnc : natChars n.natAbs with
        | nil => exact absurd hnc (natChars_ne_nil _)
        | cons d t => exact ⟨d, t, rfl⟩
      have hd : isDigitCh d = true := natChars_digits _ d (by rw [hdt]; simp)
      refine ⟨d, t, by simp [stringifyV, intChars, hn, hdt], ?_, ?_⟩ <;>
        (rintro rfl; exact absurd hd (by decide))
  | str s => exact ⟨'"', _, rfl, by decide, by decide⟩
  | arr es => exact ⟨'[', _, rfl, by decide, by decide⟩
  | obj fs => exact ⟨lbrace, _, rfl, by decide, by decide⟩

/-- A JSON-safe member list prints to nothing exactly when it is
empty, which pins down the comma placement of the printer. -/
theorem stringifyM_eq_nil_iff (fs : JSMembers) (h : jsonSafeM fs = true) :
    stringifyM fs = [] ↔ fs = JSMembers.nil := by
  cases fs with
  | nil => simp [stringifyM]
  | cons k v tl =>
    have hv : ¬ v = JSValue.undefined := by
      intro he
      subst he
      simp [jsonSafeM, jsonSafeV] at h
    simp [stringifyM, hv, quoteChars]

/-- Reading a printed integer back. -/
theorem parseVal_intChars (g : Nat) (n : Int) (rest : List Char)
    (h : followOk rest = true) :
    parseVal (g + 1) (intChars n ++ rest) = some (JSValue.num n, rest) := by
  by_cases hn : n < 0
  · obtain ⟨d, t, hdt⟩ : ∃ d t, natChars n.natAbs = d :: t := by
      cases hnc : natChars n.natAbs with
      | nil => exact absurd hnc (natChars_ne_nil _)
      | cons d t => exact ⟨d, t, rfl⟩
    have hd : isDigitCh d = true := natChars_digits _ d (by rw [hdt]; simp)
    have hp : parseNatAcc (d :: (t ++ rest)) 0 = (n.natAbs, rest) := by
      rw [show d :: (t ++ rest) = natChars n.natAbs ++ rest from by rw [hdt]; rfl]
      exact parseNat_natChars _ _ h
    rw [show intChars n ++ rest = '-' :: d :: (t ++ rest) from by
      simp [intChars, hn, hdt]]
    have e : parseVal (g + 1) ('-' :: d :: (t ++ rest)) =
        if isDigitCh d = true then
          some (JSValue.num (-((parseNatAcc (d :: (t ++ rest)) 0).1 : Int)),
            (parseNatAcc (d :: (t ++ rest)) 0).2)
        else none := rfl
    rw [e, if_pos hd, hp]
    have hcast : (-(n.natAbs : Int)) = n := by omega
    rw [hcast]
  · obtain ⟨d, t, hdt⟩ : ∃ d t, natChars n.natAbs = d :: t := by
      cases hnc : natChars n.natAbs with
      | nil => exact absurd hnc (natChars_ne_nil _)
      | cons d t => exact ⟨d, t, rfl⟩
    have hd : isDigitCh d = true := natChars_digits _ d (by rw [hdt]; simp)
    have hp : parseNatAcc (d :: (t ++ rest)) 0 = (n.natAbs, rest) := by
      rw [show d :: (t ++ rest) = natChars n.natAbs ++ rest from by rw [hdt]; rfl]
      exact parseNat_natChars _ _ h
    obtain ⟨hn1, hn2, hn3, hn4, hn5, hn6, hn7, _, _⟩ := digit_head_facts d hd
    rw [show intChars n ++ rest = d :: (t ++ rest) from by simp [intChars, hn, hdt]]
    simp only [parseVal]
    rw [if_neg hn1, if_neg hn2, if_neg hn3, if_neg hn4, if_neg hn5, if_neg hn6,
      if_neg hn7, if_pos hd, hp]
    have hcast : ((n.natAbs : Nat) : Int) = n := by omega
    simp [hcast]

/-- Every value costs at least one unit of fuel. -/
theorem jmV_pos (v : JSValue) : 1 ≤ jmV v := by
  cases v <;> simp [jmV]

/-- The reader reads back every printed JSON-safe value, with fuel at
least the value's measure and any legitimate continuation; likewise for
printed element lists up to their closing bracket and printed member lists
up to their closing brace.  The three statements are proved together by
strong induction on the fuel. -/
theorem parse_stringify_all :
    ∀ fuel,
      (∀ v rest, jsonSafeV v = true → followOk rest = true → jmV v ≤ fuel →
        parseVal fuel (stringifyV v ++ rest) = some (v, rest)) ∧
      (∀ es rest, jsonSafeL es = true → followOk rest = true → jmL es + 1 ≤ fuel →
        parseElems fuel (stringifyL es ++ ']' :: rest) = some (es, rest)) ∧
      (∀ fs rest, jsonSafeM fs = true → followOk rest = true → jmM fs + 1 ≤ fuel →
        parseMembers fuel (stringifyM fs ++ rbrace :: rest) = some (fs, rest)) := by
  intro fuel
  induction fuel using Nat.strong_induction_on with
  | _ fuel ih =>
    match fuel with
    | 0 =>
      refine ⟨fun v _ _ _ hle => absurd hle (by have := jmV_pos v; omega),
        fun _ _ _ _ hle => absurd hle (by omega),
        fun _ _ _ _ hle => absurd hle (by omega)⟩
    | g + 1 =>
      obtain ⟨ihV, ihL, ihM⟩ := ih g (by omega)
      refine ⟨?_, ?_, ?_⟩
      · -- values
        intro v rest huf hfo hle
        cases v with
        | undefined => simp [jsonSafeV] at huf
        | nan => simp [jsonSafeV] at huf
        | posInf => simp [jsonSafeV] at huf
        | negInf => simp [jsonSafeV] at huf
        | negZero => simp [jsonSafeV] at huf
        | null => rfl
        | bool b => cases b <;> rfl
        | num n => exact parseVal_intChars g n rest hfo
        | str s =>
          have e : parseVal (g + 1) (stringifyV (JSValue.str s) ++ rest) =
              (parseStringBody ((escapeList s.data ++ ['"']) ++ rest)).map
                (fun p => (JSValue.str (String.mk p.1), p.2)) := rfl
          rw [e, List.append_assoc, List.singleton_append, parseStringBody_quote]
          have hs : String.mk s.data = s := by cases s; rfl
          simp [hs]
        | arr es =>
          have huf' : jsonSafeL es = true := by simpa [jsonSafeV] using huf
          have hle' : jmL es + 1 ≤ g := by simp [jmV] at hle; omega
          have e : parseVal (g + 1) (stringifyV (JSValue.arr es) ++ rest) =
              (parseElems g ((stringifyL es ++ [']']) ++ rest)).map
                (fun p => (JSValue.arr p.1, p.2)) := rfl
          rw [e, List.append_assoc, List.singleton_append, ihL es rest huf' hfo hle']
          rfl
        | obj fs =>
          have huf' : jsonSafeM fs = true := by simpa [jsonSafeV] using huf
          have hle' : jmM fs + 1 ≤ g := by simp [jmV] at hle; omega
          have e : parseVal (g + 1) (stringifyV (JSValue.obj fs) ++ rest) =
              (parseMembers g ((stringifyM fs ++ [rbrace]) ++ rest)).map
                (fun p => (JSValue.obj p.1, p.2)) := rfl
          rw [e, List.append_assoc, List.singleton_append, ihM fs rest huf' hfo hle']
          rfl
      · -- element lists
        intro es rest huf hfo hle
        cases es with
        | nil => rfl
        | cons v tl =>
          have huf' := huf
          simp only [jsonSafeL, Bool.and_eq_true] at huf'
          obtain ⟨hufv, huftl⟩ := huf'
          obtain ⟨c, t, hct, hc1, _⟩ := stringifyV_head v
          cases tl with
          | nil =>
            have hin : stringifyL (JSList.cons v JSList.nil) ++ ']' :: rest =
                c :: (t ++ ']' :: rest) := by
              simp [stringifyL, hct]
            rw [hin]
            have hv := ihV v (']' :: rest) hufv rfl (by simp [jmL] at hle; omega)
            rw [show stringifyV v ++ ']' :: rest = c :: (t ++ ']' :: rest) from by
              rw [hct]; rfl] at hv
            simp only [parseElems, if_neg hc1]
            rw [hv]
            rfl
          | cons w tl' =>
            have hin : stringifyL (JSList.cons v (JSList.cons w tl')) ++ ']' :: rest =
                c :: (t ++ ',' :: (stringifyL (JSList.cons w tl') ++ ']' :: rest)) := by
              simp [stringifyL, hct]
            rw [hin]
            have hv := ihV v (',' :: (stringifyL (JSList.cons w tl') ++ ']' :: rest))
              hufv rfl (by simp [jmL] at hle; omega)
            rw [show stringifyV v ++ ',' :: (stringifyL (JSList.cons w tl') ++ ']' :: rest) =
                c :: (t ++ ',' :: (stringifyL (JSList.cons w tl') ++ ']' :: rest)) from by
              rw [hct]; rfl] at hv
            have hrec := ihL (JSList.cons w tl') rest huftl hfo
              (by have := jmV_pos v; simp [jmL] at hle ⊢; omega)
            simp only [parseElems, if_neg hc1]
            rw [hv]
            show Option.map (fun p => (JSList.cons v p.1, p.2))
                (parseElems g (stringifyL (JSList.cons w tl') ++ ']' :: rest)) =
              some (JSList.cons v (JSList.cons w tl'), rest)
            rw [hrec]
            rfl
      · -- member lists
        intro fs rest huf hfo hle
        cases fs with
        | nil => rfl
        | cons k v tl =>
          have huf' := huf
          simp only [jsonSafeM, Bool.and_eq_true] at huf'
          obtain ⟨hufv, huftl⟩ := huf'
          have hvne : ¬ v = JSValue.undefined := by
            intro he
            subst he
            simp [jsonSafeV] at hufv
          cases tl with
          | nil =>
            have hin : stringifyM (JSMembers.cons k v JSMembers.nil) ++ rbrace :: rest =
                '"' :: (escapeList k.data ++ '"' :: ':'
                  :: (stringifyV v ++ rbrace :: rest)) := by
              simp [stringifyM, hvne, quoteChars]
            rw [hin]
            have hv := ihV v (rbrace :: rest) hufv rfl (by simp [jmM] at hle; omega)
            have e : parseMembers (g + 1)
                ('"' :: (escapeList k.data ++ '"' :: ':'
                  :: (stringifyV v ++ rbrace :: rest))) =
                match parseStringBody (escapeList k.data ++ '"' :: ':'
                    :: (stringifyV v ++ rbrace :: rest)) with
                | none => none
                | some (kk, r) =>
                  match r with
                  | ':' :: r' =>
                    match parseVal g r' with
                    | none => none
                    | some (vv, r2) =>
                      match r2 with
                      | ',' :: r3 =>
                        (parseMembers g r3).map fun p =>
                          (JSMembers.cons (String.mk kk) vv p.1, p.2)
                      | c4 :: r4 =>
                        if c4 = rbrace then
                          some (JSMembers.cons (String.mk kk) vv JSMembers.nil, r4)
                        else none
                      | _ => none
                  | _ => none := rfl
            rw [e, parseStringBody_quote]
            show (match parseVal g (stringifyV v ++ rbrace :: rest) with
                | none => none
                | some (vv, r2) =>
                  match r2 with
                  | ',' :: r3 =>
                    (parseMembers g r3).map fun p =>
                      (JSMembers.cons (String.mk k.data) vv p.1, p.2)
                  | c4 :: r4 =>
                    if c4 = rbrace then
                      some (JSMembers.cons (String.mk k.data) vv JSMembers.nil, r4)
                    else none
                  | _ => none) =
              some (JSMembers.cons k v JSMembers.nil, rest)
            rw [hv]
            rfl
          | cons k2 v2 tl' =>
            have hne : stringifyM (JSMembers.cons k2 v2 tl') ≠ [] := by
              intro hnil
              have h0 := (stringifyM_eq_nil_iff _ huftl).mp hnil
              exact JSMembers.noConfusion h0
            have hq : (stringifyM (JSMembers.cons k2 v2 tl')).isEmpty = false := by
              cases hh : (stringifyM (JSMembers.cons k2 v2 tl')).isEmpty with
              | false => rfl
              | true => exact absurd (List.isEmpty_iff.mp hh) hne
            have hsm : stringifyM (JSMembers.cons k v (JSMembers.cons k2 v2 tl')) =
                quoteChars k ++ ':' :: stringifyV v
                  ++ (',' :: stringifyM (JSMembers.cons k2 v2 tl')) := by
              conv_lhs => rw [stringifyM]
              rw [if_neg hvne, hq]
              rfl
            have hin : stringifyM (JSMembers.cons k v (JSMembers.cons k2 v2 tl'))
                ++ rbrace :: rest =
                '"' :: (escapeList k.data ++ '"' :: ':'
                  :: (stringifyV v ++ ',' :: (stringifyM (JSMembers.cons k2 v2 tl')
                    ++ rbrace :: rest))) := by
              rw [hsm]
              simp [quoteChars]
            rw [hin]
            have hv := ihV v
              (',' :: (stringifyM (JSMembers.cons k2 v2 tl') ++ rbrace :: rest))
              hufv rfl (by simp [jmM] at hle; omega)
            have hrec := ihM (JSMembers.cons k2 v2 tl') rest huftl hfo
              (by have := jmV_pos v; simp [jmM] at hle ⊢; omega)
            have e : parseMembers (g + 1)
                ('"' :: (escapeList k.data ++ '"' :: ':'
                  :: (stringifyV v ++ ',' :: (stringifyM (JSMembers.cons k2 v2 tl')
                    ++ rbrace :: rest)))) =
                match parseStringBody (escapeList k.data ++ '"' :: ':'
                    :: (stringifyV v ++ ',' :: (stringifyM (JSMembers.cons k2 v2 tl')
                      ++ rbrace :: rest))) with
                | none => none
                | some (kk, r) =>
                  match r with
                  | ':' :: r' =>
                    match parseVal g r' with
                    | none => none
                    | some (vv, r2) =>
                      match r2 with
                      | ',' :: r3 =>
                        (parseMembers g r3).map fun p =>
                          (JSMembers.cons (String.mk kk) vv p.1, p.2)
                      | c4 :: r4 =>
                        if c4 = rbrace then
                          some (JSMembers.cons (String.mk kk) vv JSMembers.nil, r4)
                        else none
                      | _ => none
                  | _ => none := rfl
            rw [e, parseStringBody_quote]
            show (match parseVal g (stringifyV v ++ ','
                  :: (stringifyM (JSMembers.cons k2 v2 tl') ++ rbrace :: rest)) with
                | none => none
                | some (vv, r2) =>
                  match r2 with
                  | ',' :: r3 =>
                    (parseMembers g r3).map fun p =>
                      (JSMembers.cons (String.mk k.data) vv p.1, p.2)
                  | c4 :: r4 =>
                    if c4 = rbrace then
                      some (JSMembers.cons (String.mk k.data) vv JSMembers.nil, r4)
                    else none
                  | _ => none) =
              some (JSMembers.cons k v (JSMembers.cons k2 v2 tl'), rest)
            rw [hv]
            show Option.map (fun p => (JSMembers.cons (String.mk k.data) v p.1, p.2))
                (parseMembers g (stringifyM (JSMembers.cons k2 v2 tl') ++ rbrace :: rest)) =
              some (JSMembers.cons k v (JSMembers.cons k2 v2 tl'), rest)
            rw [hrec]
            rfl

/-- On JSON-safe values the printer is injective: the reader recovers
the value from the text, so equal texts mean equal values. -/
theorem stringifyV_injective (v w : JSValue)
    (hv : jsonSafeV v = true) (hw : jsonSafeV w = true)
    (h : stringifyV v = stringifyV w) : v = w := by
  have h1 := (parse_stringify_all (max (jmV v) (jmV w))).1 v [] hv rfl
    (Nat.le_max_left _ _)
  have h2 := (parse_stringify_all (max (jmV v) (jmV w))).1 w [] hw rfl
    (Nat.le_max_right _ _)
  rw [List.append_nil] at h1 h2
  rw [h, h2] at h1
  have h3 := Option.some.inj h1
  exact (Prod.mk.injEq _ _ _ _).mp h3 |>.1 |>.symm

/-- The same, phrased on the strings `JSON.stringify` returns. -/
theorem jsonStringify_injective (v w : JSValue)
    (hv : jsonSafeV v = true) (hw : jsonSafeV w = true)
    (h : jsonStringify v = jsonStringify w) : v = w := by
  apply stringifyV_injective v w hv hw
  have := congrArg String.data h
  simpa [jsonStringify] using this

/-! # Table and record facts -/

/-- Reading back the member just written: `o[k] = v` makes `o[k]` yield `v`,
whether or not `k` was present. -/
theorem recordSet_get : ∀ (m : JSMembers) (k : String) (v : JSValue),
    recordGet (recordSet m k v) k = some v
  | .nil, k, v => by simp [recordSet, recordGet]
  | .cons k' w tl, k, v => by
    by_cases h : k' = k
    · subst h
      simp [recordSet, recordGet]
    · simp [recordSet, recordGet, h, recordSet_get tl k v]

/-- Keys of the pending table after a write: overwriting keeps the key list,
a fresh key appends. -/
theorem tableSet_keys (l : List (String × Nat)) (k : String) (c : Nat) :
    (tableSet l k c).map Prod.fst =
      if k ∈ l.map Prod.fst then l.map Prod.fst else l.map Prod.fst ++ [k] := by
  induction l with
  | nil => simp [tableSet]
  | cons p tl ih =>
    by_cases h : p.1 = k
    · simp [tableSet, h]
    · simp only [tableSet, if_neg h, List.map_cons, ih]
      by_cases hk : k ∈ tl.map Prod.fst
      · simp [hk, Ne.symm h]
      · simp [hk, Ne.symm h]

/-- A write never duplicates a key. -/
theorem tableSet_nodup (l : List (String × Nat)) (k : String) (c : Nat)
    (h : (l.map Prod.fst).Nodup) : ((tableSet l k c).map Prod.fst).Nodup := by
  rw [tableSet_keys]
  by_cases hk : k ∈ l.map Prod.fst
  · simpa [hk] using h
  · simp only [hk, if_false]
    rw [← List.concat_eq_append]
    exact h.concat hk

/-- A successfully dispatched frame leaves the pending table as it was
unless it is a `disconnect` frame, which empties it. -/
theorem receive_pending (msg : JSValue) (st : ProtocolState)
    (r : ProtocolState × List Effect × Option (JSValue × JSValue))
    (h : receive msg st = Except.ok r) :
    r.1.pendingSubscriptions = st.pendingSubscriptions ∨
      r.1.pendingSubscriptions = [] := by
  unfold receive at h
  dsimp only at h
  repeat' split at h
  all_goals
    first
      | exact Except.noConfusion h
      | (injection h with h2; rw [← h2]; exact Or.inl rfl)
      | (injection h with h2; rw [← h2]; exact Or.inr rfl)

/-! # The claims -/

/-- Claim C1, counterexample.  The identifier derivation is not injective on
structurally distinct payloads, in four ways: `JSON.stringify` drops an
`undefined` member, so `subscribe('a', \x7b x: undefined \x7d)` and
`subscribe('a')` derive the same identifier; it prints `NaN` and `Infinity`
as `null` (ECMA-262 SerializeJSONProperty), so params carrying `NaN` or
`Infinity` collide with the same params carrying `null`; and it prints
negative zero as `0`, colliding with the number `0`. -/
theorem c1_identifier_collision :
    (subscribePayload "a" (some (JSMembers.cons "x" JSValue.undefined JSMembers.nil)) ≠
        subscribePayload "a" none ∧
      subscribeIdentifier "a" (some (JSMembers.cons "x" JSValue.undefined JSMembers.nil)) =
        subscribeIdentifier "a" none) ∧
    (subscribePayload "a" (some (JSMembers.cons "x" JSValue.nan JSMembers.nil)) ≠
        subscribePayload "a" (some (JSMembers.cons "x" JSValue.null JSMembers.nil)) ∧
      subscribeIdentifier "a" (some (JSMembers.cons "x" JSValue.nan JSMembers.nil)) =
        subscribeIdentifier "a" (some (JSMembers.cons "x" JSValue.null JSMembers.nil))) ∧
    (subscribePayload "a" (some (JSMembers.cons "x" JSValue.posInf JSMembers.nil)) ≠
        subscribePayload "a" (some (JSMembers.cons "x" JSValue.null JSMembers.nil)) ∧
      subscribeIdentifier "a" (some (JSMembers.cons "x" JSValue.posInf JSMembers.nil)) =
        subscribeIdentifier "a" (some (JSMembers.cons "x" JSValue.null JSMembers.nil))) ∧
    (subscribePayload "a" (some (JSMembers.cons "x" JSValue.negZero JSMembers.nil)) ≠
        subscribePayload "a" (some (JSMembers.cons "x" (JSValue.num 0) JSMembers.nil)) ∧
      subscribeIdentifier "a" (some (JSMembers.cons "x" JSValue.negZero JSMembers.nil)) =
        subscribeIdentifier "a" (some (JSMembers.cons "x" (JSValue.num 0) JSMembers.nil))) :=
  ⟨⟨by decide, by decide⟩, ⟨by decide, by decide⟩, ⟨by decide, by decide⟩,
    ⟨by decide, by decide⟩⟩

/-- Claim C1, amended: restricted to payloads that `JSON.stringify`
serializes faithfully — no `undefined` members, no `NaN` or infinite
numbers (they print as `null`), no negative zero (it prints as `0`) — and
compared as the ordered key–value sequences JS objects are, the identifier
derivation is deterministic and injective: two `subscribe` calls collide on
the identifier exactly when their merged `\x7b channel, ...params \x7d`
payloads coincide. -/
theorem c1_identifier_injective (ch1 ch2 : String) (p1 p2 : Option JSMembers)
    (h1 : jsonSafeV (JSValue.obj (subscribePayload ch1 p1)) = true)
    (h2 : jsonSafeV (JSValue.obj (subscribePayload ch2 p2)) = true) :
    subscribeIdentifier ch1 p1 = subscribeIdentifier ch2 p2 ↔
      subscribePayload ch1 p1 = subscribePayload ch2 p2 := by
  constructor
  · intro h
    have h3 := jsonStringify_injective _ _ h1 h2 h
    exact JSValue.obj.inj h3
  · intro h
    rw [subscribeIdentifier, subscribeIdentifier, h]

/-- Witness for the amended claim C1 at a concrete channel and params pair. -/
theorem c1_identifier_injective_witness :
    subscribeIdentifier "room" (some (JSMembers.cons "id" (JSValue.str "1") JSMembers.nil)) =
        subscribeIdentifier "room" none ↔
      subscribePayload "room" (some (JSMembers.cons "id" (JSValue.str "1") JSMembers.nil)) =
        subscribePayload "room" none :=
  c1_identifier_injective "room" "room"
    (some (JSMembers.cons "id" (JSValue.str "1") JSMembers.nil)) none
    (by decide) (by decide)

/-- Claim C2, counterexample.  A matching `confirm_subscription` frame does
not remove the pending entry: after `subscribe('TestChannel')` and the
matching confirmation, `receive` resolves the continuation but returns the
state unchanged, and the identifier is still in the table (the claim says it
would be gone). -/
theorem c2_confirm_keeps_entry :
    receive
        (JSValue.obj (JSMembers.cons "type" (JSValue.str "confirm_subscription")
          (JSMembers.cons "identifier"
            (JSValue.str (subscribeIdentifier "TestChannel" none)) JSMembers.nil)))
        (subscribe "TestChannel" none initialProtocolState).1 =
      Except.ok ((subscribe "TestChannel" none initialProtocolState).1,
        [Effect.resolveProm 0 (JSValue.str (subscribeIdentifier "TestChannel" none))],
        none) ∧
    tableGet (subscribe "TestChannel" none initialProtocolState).1.pendingSubscriptions
        (subscribeIdentifier "TestChannel" none) = some 0 :=
  ⟨by decide, by decide⟩

/-- Claim C2, amended: the pending table maps each identifier to at most one
continuation (a `subscribe` write never duplicates a key, and a dispatched
frame only ever keeps the table or empties it), all entries are removed on
`reset`; but a matching `confirm_subscription` or `reject_subscription`
frame does not remove the entry — it survives until the next `reset`. -/
theorem c2_pending_table :
    (∀ (st : ProtocolState) (ch : String) (ps : Option JSMembers),
      (st.pendingSubscriptions.map Prod.fst).Nodup →
      ((subscribe ch ps st).1.pendingSubscriptions.map Prod.fst).Nodup) ∧
    (∀ (msg : JSValue) (st : ProtocolState) r, receive msg st = Except.ok r →
      r.1.pendingSubscriptions = st.pendingSubscriptions ∨
        r.1.pendingSubscriptions = []) ∧
    (∀ (err : ErrValue) (st : ProtocolState),
      (reset err st).1.pendingSubscriptions = []) := by
  refine ⟨?_, receive_pending, fun _ _ => rfl⟩
  intro st ch ps h
  exact tableSet_nodup _ _ _ h

/-- Witness for the amended claim C2 at a concrete run. -/
theorem c2_pending_table_witness :
    ((subscribe "c" none initialProtocolState).1.pendingSubscriptions.map Prod.fst).Nodup ∧
    (reset ErrValue.subscriptionRejected
      (subscribe "c" none initialProtocolState).1).1.pendingSubscriptions = [] :=
  ⟨c2_pending_table.1 initialProtocolState "c" none (by decide),
    c2_pending_table.2.2 ErrValue.subscriptionRejected
      (subscribe "c" none initialProtocolState).1⟩

/-- Claim C3: a `disconnect` frame first rejects every pending subscription
with a `DisconnectedError` carrying the frame's `reason` (via `reset`), and
then signals a fatal close exactly when the frame says `reconnect === false`,
a recoverable disconnect otherwise (`reconnect` true, absent, or anything
else). -/
theorem c3_disconnect_frame (msg : JSValue) (st : ProtocolState)
    (hobj : jsTypeof msg = "object") (hnn : msg ≠ JSValue.null)
    (hty : getField msg "type" = JSValue.str "disconnect") :
    receive msg st =
      Except.ok ((reset (ErrValue.disconnected (getField msg "reason")) st).1,
        (reset (ErrValue.disconnected (getField msg "reason")) st).2 ++
          [if getField msg "reconnect" = JSValue.bool false then
              Effect.closeSig (ErrValue.disconnected (getField msg "reason"))
            else
              Effect.disconnectedSig (ErrValue.disconnected (getField msg "reason"))],
        none) := by
  by_cases hrc : getField msg "reconnect" = JSValue.bool false <;>
    simp [receive, hobj, hnn, hty, hrc]

/-- Witness for claim C3: a non-recoverable disconnect frame with one
subscription pending rejects it and closes the cable. -/
theorem c3_disconnect_frame_witness :
    receive
        (JSValue.obj (JSMembers.cons "type" (JSValue.str "disconnect")
          (JSMembers.cons "reason" (JSValue.str "unauthorized")
            (JSMembers.cons "reconnect" (JSValue.bool false) JSMembers.nil))))
        (subscribe "c" none initialProtocolState).1 =
      Except.ok ((reset (ErrValue.disconnected (JSValue.str "unauthorized"))
          (subscribe "c" none initialProtocolState).1).1,
        (reset (ErrValue.disconnected (JSValue.str "unauthorized"))
          (subscribe "c" none initialProtocolState).1).2 ++
          [Effect.closeSig (ErrValue.disconnected (JSValue.str "unauthorized"))],
        none) := by
  have h := c3_disconnect_frame
    (JSValue.obj (JSMembers.cons "type" (JSValue.str "disconnect")
      (JSMembers.cons "reason" (JSValue.str "unauthorized")
        (JSMembers.cons "reconnect" (JSValue.bool false) JSMembers.nil))))
    (subscribe "c" none initialProtocolState).1
    (by decide) (by decide) (by decide)
  simpa using h

/-- Claim C4: while the refresh callback is pending (awaiting the refresher
or the subsequent connect), every further `close` event is ignored — the
listener was unbound before the first suspension point — so refresh attempts
never overlap; from the armed state a `token_expired` close starts exactly
one refresher invocation, and nothing else ever starts one; a refresher
success starts exactly one `connect()` invocation, and nothing else ever
starts one. -/
theorem c4_token_refresh :
    (∀ st : TokenState,
      st.phase = TokenPhase.awaitingRefresher ∨ st.phase = TokenPhase.awaitingConnect →
      ∀ r, tokenStep st (TokenEvent.closeEvt r) = (st, [])) ∧
    (∀ st : TokenState, st.phase = TokenPhase.armedIdle →
      tokenStep st (TokenEvent.closeEvt "token_expired") =
        ({ st with
            phase := TokenPhase.awaitingRefresher
            refresherCalls := st.refresherCalls + 1 },
          [TokenEffect.invokeRefresher])) ∧
    (∀ (st : TokenState) (e : TokenEvent),
      TokenEffect.invokeRefresher ∈ (tokenStep st e).2 →
      st.phase = TokenPhase.armedIdle ∧ e = TokenEvent.closeEvt "token_expired") ∧
    (∀ st : TokenState, st.phase = TokenPhase.awaitingRefresher →
      tokenStep st TokenEvent.refresherResolved =
        ({ st with
            phase := TokenPhase.awaitingConnect
            connectCalls := st.connectCalls + 1 },
          [TokenEffect.invokeConnect])) ∧
    (∀ (st : TokenState) (e : TokenEvent),
      TokenEffect.invokeConnect ∈ (tokenStep st e).2 →
      st.phase = TokenPhase.awaitingRefresher ∧ e = TokenEvent.refresherResolved) := by
  refine ⟨?_, ?_, ?_, ?_, ?_⟩
  · rintro ⟨ph, rc, cc⟩ hp r
    rcases hp with h | h <;> (subst h; simp [tokenStep])
  · rintro ⟨ph, rc, cc⟩ hp
    subst hp
    simp [tokenStep]
  · rintro ⟨ph, rc, cc⟩ e hm
    cases e <;> cases ph <;>
      first
        | exact ⟨rfl, rfl⟩
        | (rename_i r
           by_cases hr : r = "token_expired"
           · exact ⟨rfl, by rw [hr]⟩
           · simp [tokenStep, hr] at hm)
        | simp [tokenStep] at hm
  · rintro ⟨ph, rc, cc⟩ hp
    subst hp
    simp [tokenStep]
  · rintro ⟨ph, rc, cc⟩ e hm
    cases e <;> cases ph <;>
      first
        | exact ⟨rfl, rfl⟩
        | (rename_i r
           by_cases hr : r = "token_expired"
           · simp [tokenStep, hr] at hm
           · simp [tokenStep, hr] at hm)
        | simp [tokenStep] at hm

/-- Witness for claim C4: the freshly armed watcher, on a `token_expired`
close, invokes the refresher once; resolving the refresher invokes connect
once. -/
theorem c4_token_refresh_witness :
    tokenStep tokenInit (TokenEvent.closeEvt "token_expired") =
      (⟨TokenPhase.awaitingRefresher, 1, 0⟩, [TokenEffect.invokeRefresher]) ∧
    tokenStep ⟨TokenPhase.awaitingRefresher, 1, 0⟩ TokenEvent.refresherResolved =
      (⟨TokenPhase.awaitingConnect, 1, 1⟩, [TokenEffect.invokeConnect]) ∧
    tokenStep ⟨TokenPhase.awaitingRefresher, 1, 0⟩ (TokenEvent.closeEvt "token_expired") =
      (⟨TokenPhase.awaitingRefresher, 1, 0⟩, []) :=
  ⟨c4_token_refresh.2.1 tokenInit rfl,
    c4_token_refresh.2.2.2.1 ⟨TokenPhase.awaitingRefresher, 1, 0⟩ rfl,
    c4_token_refresh.1 ⟨TokenPhase.awaitingRefresher, 1, 0⟩ (Or.inl rfl) "token_expired"⟩

/-- Claim C5, counterexample.  After a failed refresh the workflow does not
re-arm: the run `token_expired` close, refresher rejection, `token_expired`
close again invokes the refresher exactly once — the second expiry is
ignored because `watchForExpiredToken` is only re-invoked when the callback
returns `true`, and the failure path returns `false`.  The claim's
re-arming would make the second close invoke it again. -/
theorem c5_failure_not_rearmed :
    (tokenRun tokenInit [TokenEvent.closeEvt "token_expired",
        TokenEvent.refresherRejected, TokenEvent.closeEvt "token_expired"]).1.refresherCalls
      = 1 ∧
    (tokenRun tokenInit [TokenEvent.closeEvt "token_expired",
        TokenEvent.refresherRejected,
        TokenEvent.closeEvt "token_expired"]).1.phase = TokenPhase.disarmed ∧
    (tokenRun tokenInit [TokenEvent.closeEvt "token_expired",
        TokenEvent.refresherRejected, TokenEvent.closeEvt "token_expired"]).2 =
      [TokenEffect.invokeRefresher, TokenEffect.logRefreshFailure] := by
  refine ⟨by decide, by decide, by decide⟩

/-- Claim C5, amended: a refresher or connect rejection is caught and only
logged (the failure is swallowed), no connect is started by the failure, the
connection stays as it was — and the workflow is permanently disarmed rather
than re-armed: in the disarmed state every event, including further
`token_expired` closes, is ignored.  Only a successful refresh re-arms. -/
theorem c5_failure_swallowed_and_disarmed :
    (∀ st : TokenState, st.phase = TokenPhase.awaitingRefresher →
      tokenStep st TokenEvent.refresherRejected =
        ({ st with phase := TokenPhase.disarmed }, [TokenEffect.logRefreshFailure])) ∧
    (∀ st : TokenState, st.phase = TokenPhase.awaitingConnect →
      tokenStep st TokenEvent.connectRejected =
        ({ st with phase := TokenPhase.disarmed }, [TokenEffect.logRefreshFailure])) ∧
    (∀ (st : TokenState) (e : TokenEvent), st.phase = TokenPhase.disarmed →
      tokenStep st e = (st, [])) ∧
    (∀ st : TokenState, st.phase = TokenPhase.awaitingConnect →
      tokenStep st TokenEvent.connectResolved =
        ({ st with phase := TokenPhase.armedIdle }, [])) := by
  refine ⟨?_, ?_, ?_, ?_⟩
  · rintro ⟨ph, rc, cc⟩ hp
    subst hp
    simp [tokenStep]
  · rintro ⟨ph, rc, cc⟩ hp
    subst hp
    simp [tokenStep]
  · rintro ⟨ph, rc, cc⟩ e hp
    subst hp
    cases e <;> simp [tokenStep]
  · rintro ⟨ph, rc, cc⟩ hp
    subst hp
    simp [tokenStep]

/-- Witness for the amended claim C5: a concrete failed refresh is logged,
disarms the watcher, and a later expiry is ignored. -/
theorem c5_failure_witness :
    tokenStep ⟨TokenPhase.awaitingRefresher, 1, 0⟩ TokenEvent.refresherRejected =
      (⟨TokenPhase.disarmed, 1, 0⟩, [TokenEffect.logRefreshFailure]) ∧
    tokenStep ⟨TokenPhase.disarmed, 1, 0⟩ (TokenEvent.closeEvt "token_expired") =
      (⟨TokenPhase.disarmed, 1, 0⟩, []) :=
  ⟨c5_failure_swallowed_and_disarmed.1 ⟨TokenPhase.awaitingRefresher, 1, 0⟩ rfl,
    c5_failure_swallowed_and_disarmed.2.2.1 ⟨TokenPhase.disarmed, 1, 0⟩
      (TokenEvent.closeEvt "token_expired") rfl⟩

/-- Claim C6, evaluated at the failing input and bounded elsewhere: `receive`
throws a `TypeError` on the frame `null` — JS gives `typeof null ===
'object'`, so `null` passes the malformed-frame guard and the destructuring
`let \x7b type, ... \x7d = msg` throws — while for every other value, object
or not, `receive` returns normally.  The spec says every malformed frame is
logged and dropped and `receive` never raises; `null` is the one
counterexample the guard misses. -/
theorem c6_receive_null_throws :
    (∀ st : ProtocolState, receive JSValue.null st = Except.error JSError.typeError) ∧
    (∀ (msg : JSValue) (st : ProtocolState), msg ≠ JSValue.null →
      (receive msg st).isOk = true) := by
  constructor
  · intro st
    rfl
  · intro msg st hne
    cases msg with
    | null => exact absurd rfl hne
    | undefined => rfl
    | nan => rfl
    | posInf => rfl
    | negInf => rfl
    | negZero => rfl
    | bool b => rfl
    | num n => rfl
    | str s => rfl
    | arr es =>
      unfold receive
      dsimp only
      repeat' split
      all_goals rfl
    | obj fs =>
      unfold receive
      dsimp only
      repeat' split
      all_goals first
        | rfl
        | (rename_i hnull; exact absurd hnull (by simp))
        | (rename_i hnull _ _ _ _ _; exact absurd hnull (by simp))

/-- Witness for claim C6: the throw at `null` and a normal return at a
malformed string frame. -/
theorem c6_receive_null_throws_witness :
    receive JSValue.null initialProtocolState = Except.error JSError.typeError ∧
    (receive (JSValue.str "bogus") initialProtocolState).isOk = true :=
  ⟨c6_receive_null_throws.1 initialProtocolState,
    c6_receive_null_throws.2 (JSValue.str "bogus") initialProtocolState (by decide)⟩

/-- Claim C7: `reset(err)` rejects every pending continuation with exactly
`err` — one rejection effect per table entry, in table order — and leaves
the pending table empty, so no in-flight subscribe promise stays pending. -/
theorem c7_reset_rejects_all (err : ErrValue) (st : ProtocolState) :
    (reset err st).1.pendingSubscriptions = [] ∧
    (reset err st).2 =
      st.pendingSubscriptions.map (fun p => Effect.rejectProm p.2 err) ∧
    ∀ p ∈ st.pendingSubscriptions, Effect.rejectProm p.2 err ∈ (reset err st).2 := by
  refine ⟨rfl, rfl, ?_⟩
  intro p hp
  exact List.mem_map.mpr ⟨p, hp, rfl⟩

/-- Witness for claim C7 on a state with one pending subscription. -/
theorem c7_reset_rejects_all_witness :
    (reset (ErrValue.disconnected JSValue.undefined)
        (subscribe "c" none initialProtocolState).1).1.pendingSubscriptions = [] ∧
    Effect.rejectProm 0 (ErrValue.disconnected JSValue.undefined) ∈
      (reset (ErrValue.disconnected JSValue.undefined)
        (subscribe "c" none initialProtocolState).1).2 := by
  have h := c7_reset_rejects_all (ErrValue.disconnected JSValue.undefined)
    (subscribe "c" none initialProtocolState).1
  exact ⟨h.1, h.2.2 (subscribeIdentifier "c" none, 0) (by decide)⟩

/-- Claim C8: a `confirm_subscription` frame whose identifier has a pending
continuation resolves it with the identifier; a `reject_subscription` frame
rejects it with `SubscriptionRejectedError`; in both cases the state is
unchanged, and when no pending entry matches, the frame is logged as an
anomaly and dropped — no exception, no state change. -/
theorem c8_subscription_replies (msg : JSValue) (st : ProtocolState) (id : String)
    (hobj : jsTypeof msg = "object") (hnn : msg ≠ JSValue.null)
    (hid : getField msg "identifier" = JSValue.str id) :
    (getField msg "type" = JSValue.str "confirm_subscription" →
      (∀ cont, tableGet st.pendingSubscriptions id = some cont →
        receive msg st =
          Except.ok (st, [Effect.resolveProm cont (JSValue.str id)], none)) ∧
      (tableGet st.pendingSubscriptions id = none →
        receive msg st =
          Except.ok (st, [Effect.logError "subscription not found"], none))) ∧
    (getField msg "type" = JSValue.str "reject_subscription" →
      (∀ cont, tableGet st.pendingSubscriptions id = some cont →
        receive msg st =
          Except.ok (st, [Effect.rejectProm cont ErrValue.subscriptionRejected], none)) ∧
      (tableGet st.pendingSubscriptions id = none →
        receive msg st =
          Except.ok (st, [Effect.logError "subscription not found"], none))) := by
  constructor
  · intro hty
    constructor
    · intro cont hc
      simp [receive, hobj, hnn, hty, hid, jsToString, hc]
    · intro hc
      simp [receive, hobj, hnn, hty, hid, jsToString, hc]
  · intro hty
    constructor
    · intro cont hc
      simp [receive, hobj, hnn, hty, hid, jsToString, hc]
    · intro hc
      simp [receive, hobj, hnn, hty, hid, jsToString, hc]

/-- Witness for claim C8: a confirmation for the one pending identifier
resolves continuation `0`; a rejection frame for an unknown identifier is
logged and leaves the state alone. -/
theorem c8_subscription_replies_witness :
    receive
        (JSValue.obj (JSMembers.cons "type" (JSValue.str "confirm_subscription")
          (JSMembers.cons "identifier"
            (JSValue.str (subscribeIdentifier "c" none)) JSMembers.nil)))
        (subscribe "c" none initialProtocolState).1 =
      Except.ok ((subscribe "c" none initialProtocolState).1,
        [Effect.resolveProm 0 (JSValue.str (subscribeIdentifier "c" none))], none) ∧
    receive
        (JSValue.obj (JSMembers.cons "type" (JSValue.str "reject_subscription")
          (JSMembers.cons "identifier" (JSValue.str "nope") JSMembers.nil)))
        initialProtocolState =
      Except.ok (initialProtocolState,
        [Effect.logError "subscription not found"], none) := by
  constructor
  · exact ((c8_subscription_replies
      (JSValue.obj (JSMembers.cons "type" (JSValue.str "confirm_subscription")
        (JSMembers.cons "identifier"
          (JSValue.str (subscribeIdentifier "c" none)) JSMembers.nil)))
      (subscribe "c" none initialProtocolState).1
      (subscribeIdentifier "c" none)
      (by decide) (by decide) (by decide)).1 (by decide)).1 0 (by decide)
  · exact ((c8_subscription_replies
      (JSValue.obj (JSMembers.cons "type" (JSValue.str "reject_subscription")
        (JSMembers.cons "identifier" (JSValue.str "nope") JSMembers.nil)))
      initialProtocolState "nope"
      (by decide) (by decide) (by decide)).2 (by decide)).2 (by decide)

/-- Where the protocol-selection chain throws: an undefined (or absent)
protocol, an unrecognized protocol string, or a msgpack/protobuf dialect
without an explicit encoder. -/
theorem resolveProtocol_error_iff (p : ProtoOpt) (enc : Bool) (wf : Option String) :
    (∃ e, resolveProtocol p enc wf = Except.error e) ↔
      (p = ProtoOpt.absent ∨ p = ProtoOpt.explicitUndefined) ∨
      (∃ s, p = ProtoOpt.name s ∧ s ≠ "actioncable-v1-json" ∧
        s ≠ "actioncable-v1-msgpack" ∧ s ≠ "actioncable-v1-protobuf") ∨
      ((p = ProtoOpt.name "actioncable-v1-msgpack" ∨
          p = ProtoOpt.name "actioncable-v1-protobuf") ∧ enc = false) := by
  cases p with
  | absent => simp [resolveProtocol]
  | explicitUndefined => simp [resolveProtocol]
  | custom => simp [resolveProtocol]
  | name s =>
    by_cases h1 : s = "actioncable-v1-json"
    · subst h1
      simp [resolveProtocol]
    · by_cases h2 : s = "actioncable-v1-msgpack"
      · subst h2
        cases enc <;> simp [resolveProtocol]
      · by_cases h3 : s = "actioncable-v1-protobuf"
        · subst h3
          cases enc <;> simp [resolveProtocol]
        · simp only [resolveProtocol, if_neg h1, if_neg h2, if_neg h3]
          constructor
          · intro _
            exact Or.inr (Or.inl ⟨s, rfl, h1, h2, h3⟩)
          · intro _
            exact ⟨ConfigError.protocolNotSupported s, rfl⟩

/-- The merge with `DEFAULT_OPTIONS` never leaves the protocol member
absent. -/
theorem mergedProtocol_ne_absent (p : ProtoOpt) :
    mergedProtocol p ≠ ProtoOpt.absent := by
  cases p <;> simp [mergedProtocol]

/-- Claim C9: `createCable` throws synchronously exactly on the
configuration errors — no truthy URL and no transport, an explicitly
undefined protocol, an unrecognized protocol string, or a
msgpack/protobuf protocol without an explicit encoder — and for every
other configuration returns a cable without throwing. -/
theorem c9_createCable_errors (url : Option String) (opts : Option CableOpts) :
    (∃ e, createCable url opts = Except.error e) ↔
      (urlTruthy url = false ∧ (opts.getD emptyOpts).transport = false) ∨
      mergedProtocol (opts.getD emptyOpts).protocol = ProtoOpt.explicitUndefined ∨
      (∃ s, mergedProtocol (opts.getD emptyOpts).protocol = ProtoOpt.name s ∧
        s ≠ "actioncable-v1-json" ∧ s ≠ "actioncable-v1-msgpack" ∧
        s ≠ "actioncable-v1-protobuf") ∨
      ((mergedProtocol (opts.getD emptyOpts).protocol =
          ProtoOpt.name "actioncable-v1-msgpack" ∨
        mergedProtocol (opts.getD emptyOpts).protocol =
          ProtoOpt.name "actioncable-v1-protobuf") ∧
        (opts.getD emptyOpts).encoder = false) := by
  have hchain := resolveProtocol_error_iff
    (mergedProtocol (opts.getD emptyOpts).protocol)
    (opts.getD emptyOpts).encoder (opts.getD emptyOpts).websocketFormat
  unfold createCable
  dsimp only
  by_cases hu : (!urlTruthy url && !(opts.getD emptyOpts).transport) = true
  · rw [if_pos hu]
    simp only [Bool.and_eq_true, Bool.not_eq_true'] at hu
    constructor
    · intro _
      exact Or.inl hu
    · intro _
      exact ⟨ConfigError.urlOrTransportMissing, rfl⟩
  · rw [if_neg hu]
    have hu' : ¬ (urlTruthy url = false ∧ (opts.getD emptyOpts).transport = false) := by
      intro hab
      exact hu (by simp [hab.1, hab.2])
    cases hr : resolveProtocol (mergedProtocol (opts.getD emptyOpts).protocol)
        (opts.getD emptyOpts).encoder (opts.getD emptyOpts).websocketFormat with
    | error e =>
      have hrhs := hchain.mp ⟨e, hr⟩
      constructor
      · intro _
        rcases hrhs with (habs | hundef) | hname | henc
        · exact absurd habs (mergedProtocol_ne_absent _)
        · exact Or.inr (Or.inl hundef)
        · exact Or.inr (Or.inr (Or.inl hname))
        · exact Or.inr (Or.inr (Or.inr henc))
      · intro _
        exact ⟨e, rfl⟩
    | ok res =>
      obtain ⟨rp, jd, wfr⟩ := res
      constructor
      · intro ⟨e, he⟩
        exact Except.noConfusion he
      · intro hrhs
        rcases hrhs with hab | hundef | hname | henc
        · exact absurd hab hu'
        · have : ∃ e, resolveProtocol (mergedProtocol (opts.getD emptyOpts).protocol)
              (opts.getD emptyOpts).encoder (opts.getD emptyOpts).websocketFormat =
                Except.error e := hchain.mpr (Or.inl (Or.inr hundef))
          rw [hr] at this
          exact absurd this (by simp)
        · have : ∃ e, resolveProtocol (mergedProtocol (opts.getD emptyOpts).protocol)
              (opts.getD emptyOpts).encoder (opts.getD emptyOpts).websocketFormat =
                Except.error e := hchain.mpr (Or.inr (Or.inl hname))
          rw [hr] at this
          exact absurd this (by simp)
        · have : ∃ e, resolveProtocol (mergedProtocol (opts.getD emptyOpts).protocol)
              (opts.getD emptyOpts).encoder (opts.getD emptyOpts).websocketFormat =
                Except.error e := hchain.mpr (Or.inr (Or.inr henc))
          rw [hr] at this
          exact absurd this (by simp)

/-- Witness for claim C9: calling with no URL and no transport throws, and
the plain-URL default configuration returns a cable. -/
theorem c9_createCable_errors_witness :
    (∃ e, createCable none none = Except.error e) ∧
    ¬ ∃ e, createCable (some "ws://example") none = Except.error e :=
  ⟨(c9_createCable_errors none none).mpr (Or.inl ⟨rfl, rfl⟩),
    fun h =>
      by
        rcases (c9_createCable_errors (some "ws://example") none).mp h with
          hab | hundef | hname | henc
        · exact absurd hab.1 (by decide)
        · exact absurd hundef (by decide)
        · rcases hname with ⟨s, hs, h1, _, _⟩
          rw [show mergedProtocol (Option.getD (none : Option CableOpts) emptyOpts).protocol
              = ProtoOpt.name "actioncable-v1-json" from by decide] at hs
          exact h1 (ProtoOpt.name.inj hs).symm
        · rcases henc with ⟨hd, _⟩
          rcases hd with hd | hd <;> exact absurd hd (by decide)⟩

/-- Claim C10: `unsubscribe` sends exactly one `unsubscribe` command and
`perform` exactly one `message` command carrying the serialized payload,
both leave the protocol state untouched and return an already resolved
promise; and `perform` sets the payload's `action` member to the action,
overwriting any caller-supplied `action` member before serialization. -/
theorem c10_unsubscribe_perform (id action : String) (payload : Option JSMembers)
    (st : ProtocolState) :
    unsubscribe id st =
      (st, [Effect.send (Command.unsubscribeCmd id)], PromiseRes.resolvedProm) ∧
    perform id action payload st =
      (st,
        [Effect.send (Command.messageCmd id
          (jsonStringify (JSValue.obj (recordSet (payload.getD JSMembers.nil) "action"
            (JSValue.str action)))))],
        PromiseRes.resolvedProm) ∧
    recordGet (recordSet (payload.getD JSMembers.nil) "action" (JSValue.str action))
        "action" = some (JSValue.str action) :=
  ⟨rfl, rfl, recordSet_get _ _ _⟩
